import Mathlib

/-!
Verification of the RediSearch result-processor pipeline
(`src/result_processor.c`) and the quantile reducer constructor
(`src/unnamed/part_000`), as a shallow embedding in Lean 4.

Modelling conventions:
* C `double` scores are modelled as `Int` (the pipeline only ever compares
  scores, never does arithmetic on them); the quantile percentage is
  modelled as `Rat` since the code compares it against the rationals 0 and 1.
* `uint32_t` arithmetic is modelled as `Nat` reduced `% 4294967296` exactly
  where the C code performs 32-bit arithmetic (the pager).
* An upstream result processor is modelled by the finite list of records it
  will deliver with `RS_RESULT_OK`, followed by the terminal status
  (`EOF`, `TIMEDOUT` or an error) that it then keeps returning.
* Fallible external services (document loader, scoring function) are
  parameters of the embedding.
-/

/-- Result-processor return codes (`RS_RESULT_OK/EOF/TIMEDOUT/ERROR`).
`RS_RESULT_QUEUED` is internal to the sorter accumulation loop and is
consumed by the model drains, exactly as `rpsortNext_Accum` consumes it. -/
inductive RPStatus where
  | ok
  | eof
  | timedOut
  | error
deriving DecidableEq, Repr

/-- The terminal status of an upstream stream: after its records are
exhausted it keeps returning one of these (never `OK`). -/
inductive Term where
  | eof
  | timedOut
  | error
deriving DecidableEq, Repr

/-- The `RS_RESULT_*` code a terminal status maps to. -/
def Term.toStatus : Term → RPStatus
  | .eof => .eof
  | .timedOut => .timedOut
  | .error => .error

/-- Document metadata (`RSDocumentMetadata`): only the
`flags & Document_Deleted` bit is relevant to the claims. -/
structure DocMetadata where
  deleted : Bool
deriving DecidableEq, Repr

/-- The record flowing through the pipeline (`SearchResult`).
`indexResult` and `scoreExplain` are irrelevant to every claim and omitted;
`rowdata` is the looked-up field map, modelled as an association list. -/
structure SearchResult where
  docId : Nat
  score : Int
  dmd : Option DocMetadata
  rowdata : List (Nat × Int)
deriving DecidableEq, Repr

/-- True when the dmd is absent or its `Document_Deleted` flag is set
(the condition `r->dmd == NULL || (r->dmd->flags & Document_Deleted)`
used by `rploaderNext`). -/
def dmdMissingOrDeleted (r : SearchResult) : Bool :=
  match r.dmd with
  | none => true
  | some d => d.deleted

/-! ### Buffer-and-locker: validate-and-yield (C1)

`isResultValid` is `result_processor.c:894`: despite its own comment
("check if the doc is not marked deleted") it returns
`res->dmd->flags & Document_Deleted`, i.e. TRUE for a deleted document.
Buffered results always carry a non-null `dmd`; the `none` branch below is
only for totality. -/

def isResultValid (res : SearchResult) : Bool :=
  match res.dmd with
  | some d => d.deleted
  | none => false

/-- One call of `rpbufferNext_ValidateAndYield` (`result_processor.c:922`):
scan the buffered results; a result for which `isResultValid` holds is
returned (`ReturnResult`), the others are cleared and skipped.
The remaining buffer (iterator position) is returned as the third
component; a cleared result is simply dropped. -/
def rpbufferNext_ValidateAndYield :
    List SearchResult → RPStatus × Option SearchResult × List SearchResult
  | [] => (.eof, none, [])
  | r :: rest =>
    if isResultValid r then (.ok, some r, rest)
    else rpbufferNext_ValidateAndYield rest

/-- Repeatedly call `rpbufferNext_ValidateAndYield` until a non-OK status,
collecting the emitted records (the downstream drain of the yield phase). -/
def rpbufferValidateDrain : Nat → List SearchResult → List SearchResult
  | 0, _ => []
  | fuel + 1, buf =>
    match rpbufferNext_ValidateAndYield buf with
    | (.ok, some r, rest) => r :: rpbufferValidateDrain fuel rest
    | _ => []

/-! ### Quantile reducer constructor (C10)

Modelled from the spec: the argument-cursor helpers
(`ReducerOptions_GetKey`, `AC_GetDouble`, `AC_IsAtEnd`, `AC_GetUnsigned`,
`ReducerOpts_EnsureArgsConsumed`) and the constant `MAX_SAMPLE_SIZE` live
in repository files that are not under `src/`; they are modelled as an
abstract pre-parsed argument record and an abstract bound.  Each helper
records an error in `options->status` on failure. -/

/-- Abstract view of the argument cursor reaching `RDCRQuantile_New`:
`keyOk` is whether `ReducerOptions_GetKey` succeeds, `pct` is the result of
`AC_GetDouble` (`none` = parse failure), `resArg` is `none` when
`AC_IsAtEnd` is true, otherwise the result of `AC_GetUnsigned`
(`some none` = parse failure), and `trailing` is whether arguments remain
after the resolution argument. -/
structure QuantileArgs where
  keyOk : Bool
  pct : Option Rat
  resArg : Option (Option Nat)
  trailing : Bool
deriving DecidableEq, Repr

/-- The reducer fields set by `RDCRQuantile_New` on success. -/
structure QTLReducer where
  pct : Rat
  resolution : Nat
deriving DecidableEq, Repr

/-- `RDCRQuantile_New` (`src/unnamed/part_000:62`): returns the constructed
reducer or `none` (NULL), paired with whether an error was recorded in
`options->status`.  `r->resolution` defaults to 500; an explicit resolution
must satisfy `1 <= res <= MAX_SAMPLE_SIZE`; the percentile must satisfy
`0 <= pct <= 1.0`. -/
def RDCRQuantile_New (maxSampleSize : Nat) (a : QuantileArgs) :
    Option QTLReducer × Bool :=
  if a.keyOk = false then (none, true)
  else
    match a.pct with
    | none => (none, true)
    | some p =>
      if ¬(0 ≤ p ∧ p ≤ 1) then (none, true)
      else
        match a.resArg with
        | none => (some { pct := p, resolution := 500 }, false)
        | some none => (none, true)
        | some (some res) =>
          if res < 1 ∨ maxSampleSize < res then (none, true)
          else if a.trailing then (none, true)
          else (some { pct := p, resolution := res }, false)

/-! ### Counter RP with profilers (C3, C5, C6)

`rpcountNext` (`result_processor.c:816`) drains its upstream, counting the
successful pulls and clearing each record; when the upstream is a Profile
RP it additionally increments `((RPProfile *)base->parent->endProc)->profileCount`
once before returning.  The model also embeds `rpprofileNext`
(`result_processor.c:755`), which increments its own `profileCount` on
every call through it: `upCount` is the count of the profiler that is the
counter upstream, `endCount` the count of the profiler that is the
pipeline handle `endProc` (downstream of the counter, hence never called
while the counter drains). -/

structure CounterState where
  src : List SearchResult
  term : Term
  upstreamIsProfile : Bool
  upCount : Nat
  endCount : Nat
  count : Nat
  cleared : List SearchResult
deriving DecidableEq, Repr

/-- The `while ((rc = upstream->Next(...)) == RS_RESULT_OK)` loop of
`rpcountNext`: each OK pull goes through the upstream profiler (bumping
`upCount` when the upstream is a profiler), bumps the counter `count`
and clears the record (`SearchResult_Clear`). -/
def rpcountDrainLoop : List SearchResult → CounterState → CounterState
  | [], st => st
  | r :: rest, st =>
    rpcountDrainLoop rest
      { st with
        count := st.count + 1
        upCount := if st.upstreamIsProfile then st.upCount + 1 else st.upCount
        cleared := st.cleared ++ [r] }

/-- `rpcountNext`: drain the upstream (the terminal pull also passes
through the upstream profiler), then compensate for the un-counted EOF by
incrementing the profile count of `base->parent->endProc` when the
upstream is a Profile RP, and return the upstream terminal status. -/
def rpcountNext (s : CounterState) : RPStatus × CounterState :=
  let s1 := { rpcountDrainLoop s.src s with src := ([] : List SearchResult) }
  let s2 := { s1 with
    upCount := if s1.upstreamIsProfile then s1.upCount + 1 else s1.upCount }
  let s3 :=
    if s2.upstreamIsProfile then { s2 with endCount := s2.endCount + 1 } else s2
  (s.term.toStatus, s3)

/-! ### Unlocker RP (C3)

`RPUnlocker_Next` (`result_processor.c:1025`) forwards the upstream
status; on `RS_RESULT_EOF` it additionally calls
`RedisModule_ThreadSafeContextUnlock`, modelled by bumping `unlockCount`. -/

structure UnlockerState where
  src : List SearchResult
  term : Term
  unlockCount : Nat
deriving DecidableEq, Repr

/-- One call of `RPUnlocker_Next`. -/
def RPUnlocker_Next (s : UnlockerState) :
    RPStatus × Option SearchResult × UnlockerState :=
  match s.src with
  | r :: rest => (.ok, some r, { s with src := rest })
  | [] =>
    if s.term = Term.eof then
      (.eof, none, { s with unlockCount := s.unlockCount + 1 })
    else (s.term.toStatus, none, s)

/-! ### Scorer RP (C8)

`rpscoreNext` (`result_processor.c:202`): pull upstream, apply the scoring
function, and on the `RS_SCORE_FILTEROUT` sentinel decrement
`parent->totalResults`, clear the record and continue; otherwise return OK.
The scoring function `sf` and the sentinel `filterOut`
(`RS_SCORE_FILTEROUT`, defined in `ext/default.h`, not under `src/`) are
parameters.  `totalResults` is modelled as `Int` (the C `size_t` is only
ever decremented after having been incremented for the same record). -/

def rpscoreNext (filterOut : Int) (sf : SearchResult → Int) :
    List SearchResult → Term → Int →
    RPStatus × Option SearchResult × List SearchResult × Int
  | [], term, total => (term.toStatus, none, [], total)
  | r :: rest, term, total =>
    let scored := { r with score := sf r }
    if scored.score = filterOut then rpscoreNext filterOut sf rest term (total - 1)
    else (.ok, some scored, rest, total)

/-- Repeatedly call `rpscoreNext` until a non-OK status, collecting the
emitted records and threading `totalResults`. -/
def rpscoreDrain (filterOut : Int) (sf : SearchResult → Int) :
    Nat → List SearchResult → Term → Int → List SearchResult × RPStatus × Int
  | 0, _, _, total => ([], .error, total)
  | fuel + 1, xs, term, total =>
    match rpscoreNext filterOut sf xs term total with
    | (.ok, some r, rest, t) =>
      let p := rpscoreDrain filterOut sf fuel rest term t
      (r :: p.1, p.2)
    | (st, _, _, t) => ([], st, t)

/-! ### Loader RP (C9)

`rploaderNext` (`result_processor.c:673`): pull upstream and propagate any
non-OK status; if the dmd is absent or marked deleted, return OK without
loading; otherwise call `RLookup_LoadDocument` (an external service,
modelled by the parameter `load`; `none` = failure) and return OK whether
or not the load succeeded — a failed load leaves the row as it was. -/

def rploaderNext (load : SearchResult → Option (List (Nat × Int))) :
    List SearchResult → Term →
    RPStatus × Option SearchResult × List SearchResult
  | [], term => (term.toStatus, none, [])
  | r :: rest, _ =>
    if dmdMissingOrDeleted r then (.ok, some r, rest)
    else
      match load r with
      | some row => (.ok, some { r with rowdata := row }, rest)
      | none => (.ok, some r, rest)

/-! Concrete example records used by closed theorems. -/

/-- A live (non-deleted) buffered record. -/
def liveResult : SearchResult :=
  { docId := 1, score := 10, dmd := some { deleted := false }, rowdata := [] }

/-- A buffered record whose dmd has been marked deleted. -/
def deletedResult : SearchResult :=
  { docId := 2, score := 20, dmd := some { deleted := true }, rowdata := [] }

/-- A plain record with no interesting fields. -/
def plainResult : SearchResult :=
  { docId := 1, score := 0, dmd := none, rowdata := [] }

/-- Upstream of the scorer in the filter-out scenario of the spec
(five documents; the scoring function maps doc 2 to the sentinel). -/
def scorerExample : List SearchResult :=
  [{ docId := 1, score := 1, dmd := none, rowdata := [] },
   { docId := 2, score := -1, dmd := none, rowdata := [] },
   { docId := 3, score := 2, dmd := none, rowdata := [] },
   { docId := 4, score := 3, dmd := none, rowdata := [] },
   { docId := 5, score := 2, dmd := none, rowdata := [] }]

/-! ### Pager RP (C7)

`rppagerNext` (`result_processor.c:621`): skip `offset` upstream records,
then emit records until `limit` of them have been produced.  `offset`,
`limit` and `count` are `uint32_t`; the comparison
`self->count >= self->limit + self->offset` and the increments are 32-bit
unsigned arithmetic, hence the explicit `% 4294967296`.  The while loop of
the C function is the recursion on the upstream list; on the empty list
the upstream pull returns the terminal status, which is propagated. -/

def rppagerNext (offset limit : Nat) (term : Term) :
    Nat → List SearchResult →
    RPStatus × Option SearchResult × Nat × List SearchResult
  | count, [] =>
    if count < offset then (term.toStatus, none, count, [])
    else if (limit + offset) % 4294967296 ≤ count then
      (RPStatus.eof, none, count, [])
    else (term.toStatus, none, (count + 1) % 4294967296, [])
  | count, x :: rest =>
    if count < offset then
      rppagerNext offset limit term ((count + 1) % 4294967296) rest
    else if (limit + offset) % 4294967296 ≤ count then
      (RPStatus.eof, none, count, x :: rest)
    else (RPStatus.ok, some x, (count + 1) % 4294967296, rest)

/-- Repeatedly call `rppagerNext` until a non-OK status, collecting the
emitted records; the second component is the final status the caller
sees.  The fuel only guards termination; `xs.length + 1` is always
enough. -/
def rppagerDrain (offset limit : Nat) (term : Term) :
    Nat → Nat → List SearchResult → List SearchResult × RPStatus
  | 0, _, _ => ([], RPStatus.error)
  | fuel + 1, count, xs =>
    match rppagerNext offset limit term count xs with
    | (RPStatus.ok, some r, c, rest) =>
      let p := rppagerDrain offset limit term fuel c rest
      (r :: p.1, p.2)
    | (st, _, _, _) => ([], st)

/-! ### Sorter RP (C2, C4)

The min-max heap (`util/minmax_heap.c`) is repository code that is not
under `src/`.  Modelled from the spec: a min-max heap is a double-ended
priority queue supporting O(log n) pop of both the comparator-least and
the comparator-greatest element; the canonical model keeps the heap
contents as a list sorted in descending comparator order, so `mmh_pop_max`
takes the head, `mmh_peek_min` and `mmh_pop_min` work on the last element,
and `mmh_insert` is ordered insertion. -/

/-- The strict "wins" relation induced by a C comparator:
`cmp a b > 0` means `a` beats `b` (the test used by the sorter at
`result_processor.c:482`). -/
def sortGT (cmp : SearchResult → SearchResult → Int)
    (a b : SearchResult) : Prop :=
  0 < cmp a b

instance (cmp : SearchResult → SearchResult → Int) :
    DecidableRel (sortGT cmp) :=
  fun a b => (inferInstance : Decidable (0 < cmp a b))

/-- Modelled from the spec: heap insertion, as ordered insertion into the
descending-sorted heap contents. -/
def mmh_insert (cmp : SearchResult → SearchResult → Int) (x : SearchResult)
    (h : List SearchResult) : List SearchResult :=
  List.orderedInsert (sortGT cmp) x h

/-- Modelled from the spec: peek the heap minimum (last of the
descending-sorted contents). -/
def mmh_peek_min (h : List SearchResult) : Option SearchResult :=
  h.getLast?

/-- Modelled from the spec: pop the heap minimum. -/
def mmh_pop_min (h : List SearchResult) : List SearchResult :=
  h.dropLast

/-- The heap update performed by one `rpsortNext_innerLoop` iteration
(`result_processor.c:460-492`) in score mode (no SORTBY keys, so the
field-loading block guarded by `if (nkeys && h->dmd)` is skipped): if the
heap is dynamic (`size == 0`) or not yet full (`count + 1 < size`, the
heap being allocated with capacity `maxresults + 1 = K + 1`), insert the
record; otherwise peek the heap minimum and, when
`cmp(new, min) > 0`, pop the minimum and insert the new record, else
discard the new record.  The `minScore` bookkeeping on the pipeline
handle is omitted: it does not affect the heap contents or the yield.
The unreachable `none` branch (the heap is non-empty whenever it is full
and `K > 0`) returns the heap unchanged. -/
def rpsortHeapUpdate (cmp : SearchResult → SearchResult → Int) (K : Nat)
    (h : List SearchResult) (x : SearchResult) : List SearchResult :=
  if K = 0 ∨ h.length + 1 < K + 1 then mmh_insert cmp x h
  else
    match mmh_peek_min h with
    | none => h
    | some minh =>
      if 0 < cmp x minh then mmh_insert cmp x (mmh_pop_min h) else h

/-- `rpsortNext_Accum` (`result_processor.c:496`): feed every upstream
record through the inner loop; each iteration returns `RESULT_QUEUED` and
the loop continues until the upstream is exhausted. -/
def rpsortAccum (cmp : SearchResult → SearchResult → Int) (K : Nat)
    (xs : List SearchResult) : List SearchResult :=
  xs.foldl (rpsortHeapUpdate cmp K) []

/-- `rpsortNext_Yield` (`result_processor.c:358`): pop the heap maximum
while fewer than `size` results have been yielded (`offset++ < size`);
when the heap is dynamic (`size == 0`) pop everything. -/
def rpsortYield (K : Nat) (h : List SearchResult) : List SearchResult :=
  if K = 0 then h else h.take K

/-- The global timeout policy (`RSGlobalConfig.timeoutPolicy`). -/
inductive TimeoutPolicy where
  | Return
  | Fail
deriving DecidableEq, Repr

/-- The sorter as a reducer: accumulate every upstream record, then — on
upstream `EOF`, or on `TIMED_OUT` when the policy is `Return`
(`result_processor.c:405`) — transition to the yield phase and drain the
heap; the status the caller sees at end-of-stream is then `EOF` (the
yield on a spent heap).  Any other terminal status is propagated and
nothing is yielded (the heap is freed by `rpsortFree`, never yielded). -/
def rpsortDrain (cmp : SearchResult → SearchResult → Int) (K : Nat)
    (xs : List SearchResult) (term : Term) (pol : TimeoutPolicy) :
    List SearchResult × RPStatus :=
  if term = Term.eof ∨ (term = Term.timedOut ∧ pol = TimeoutPolicy.Return)
  then (rpsortYield K (rpsortAccum cmp K xs), RPStatus.eof)
  else ([], term.toStatus)

/-- The specification-side descending sort of the whole input: fold the
records through ordered insertion by the comparator.  The claims compare
the sorter drain against `(sortDescSpec cmp xs).take K`. -/
def sortDescSpec (cmp : SearchResult → SearchResult → Int)
    (xs : List SearchResult) : List SearchResult :=
  xs.foldl (fun s x => List.orderedInsert (sortGT cmp) x s) []

/-- `cmpByScore` (`result_processor.c:505`): lower score loses; on equal
scores the higher doc id loses (so the lower doc id wins the tie). -/
def cmpByScore (h1 h2 : SearchResult) : Int :=
  if h1.score < h2.score then -1
  else if h2.score < h1.score then 1
  else if h2.docId < h1.docId then -1 else 1

/-- The score top-K scenario of the spec:
`(1,1.0) (2,3.0) (3,2.0) (4,3.0) (5,2.0)`. -/
def sorterExample : List SearchResult :=
  [{ docId := 1, score := 1, dmd := none, rowdata := [] },
   { docId := 2, score := 3, dmd := none, rowdata := [] },
   { docId := 3, score := 2, dmd := none, rowdata := [] },
   { docId := 4, score := 3, dmd := none, rowdata := [] },
   { docId := 5, score := 2, dmd := none, rowdata := [] }]

/-- Counter state: two-record upstream ending in EOF, no profiling. -/
def counterTwoRecEof : CounterState :=
  { src := [plainResult, liveResult], term := Term.eof,
    upstreamIsProfile := false, upCount := 0, endCount := 0, count := 0,
    cleared := [] }

/-- Counter state: one-record upstream ending in TIMED_OUT. -/
def counterTimedOut : CounterState :=
  { src := [plainResult], term := Term.timedOut, upstreamIsProfile := false,
    upCount := 0, endCount := 0, count := 0, cleared := [] }

/-- Counter state: one-record upstream ending in EOF, profiled pipeline. -/
def counterOneRecProfile : CounterState :=
  { src := [plainResult], term := Term.eof, upstreamIsProfile := true,
    upCount := 0, endCount := 0, count := 0, cleared := [] }

/-- Counter state: exhausted upstream at EOF, profiled pipeline. -/
def counterDrainedProfile : CounterState :=
  { src := [], term := Term.eof, upstreamIsProfile := true,
    upCount := 5, endCount := 7, count := 3, cleared := [] }

/-- Unlocker state: exhausted upstream at EOF. -/
def unlockerDrained : UnlockerState :=
  { src := [], term := Term.eof, unlockCount := 4 }

/-! ## Theorems -/

/-- C1 (code bug): in validate-and-yield mode the yield phase is claimed to
emit exactly the buffered records whose dmd is NOT marked deleted, clearing
and skipping the deleted ones.  The code does the opposite: `isResultValid`
returns the `Document_Deleted` bit itself instead of its negation,
contradicting its own comment, so the drain emits exactly the deleted
records.  On the buffer `[liveResult, deletedResult]` the code yields
`[deletedResult]` while the claim demands `[liveResult]`. -/
theorem rpbuffer_validateAndYield_inverted :
    rpbufferValidateDrain 3 [liveResult, deletedResult] = [deletedResult] ∧
    [liveResult, deletedResult].filter (fun r => !dmdMissingOrDeleted r)
      = [liveResult] ∧
    isResultValid liveResult = false ∧
    isResultValid deletedResult = true := by
  decide

/-- C10: `RDCRQuantile_New` returns NULL and records an error whenever the
parsed percentile lies outside `[0, 1]` or an explicitly supplied
resolution lies outside `[1, MAX_SAMPLE_SIZE]`; when construction succeeds
with no explicit resolution argument, the resolution is 500. -/
theorem RDCRQuantile_New_validation (maxSampleSize : Nat) (a : QuantileArgs) :
    (∀ p : Rat, a.pct = some p → (p < 0 ∨ 1 < p) →
      RDCRQuantile_New maxSampleSize a = (none, true)) ∧
    (∀ res : Nat, a.resArg = some (some res) → (res < 1 ∨ maxSampleSize < res) →
      RDCRQuantile_New maxSampleSize a = (none, true)) ∧
    (∀ red : QTLReducer, (RDCRQuantile_New maxSampleSize a).1 = some red →
      a.resArg = none → red.resolution = 500) := by
  unfold RDCRQuantile_New
  refine ⟨?_, ?_, ?_⟩
  · intro p hp hout
    rcases ha : a.keyOk with _ | _ <;> simp [ha, hp]
    intro h0 h1
    rcases hout with h | h
    · exact absurd h0 (not_le.mpr h)
    · exact absurd h1 (not_le.mpr h)
  · intro res hres hout
    rcases ha : a.keyOk with _ | _
    · simp [ha]
    · rcases hp : a.pct with _ | p
      · simp [ha, hp]
      · by_cases hin : 0 ≤ p ∧ p ≤ 1
        · simp [ha, hp, hres, hin]
          intro h0 h1
          rcases hout with h | h
          · exact absurd (Nat.lt_one_iff.mp h) h0
          · exact absurd h1 (not_le.mpr h)
        · simp [ha, hp, hin]
  · intro red hred hnone
    rcases ha : a.keyOk with _ | _
    · simp [ha] at hred
    · rcases hp : a.pct with _ | p
      · simp [ha, hp] at hred
      · by_cases hin : 0 ≤ p ∧ p ≤ 1
        · simp [ha, hp, hin, hnone] at hred
          rw [← hred]
        · simp [ha, hp, hin] at hred

/-- C10 witness: percentile 2 is rejected, resolution 0 is rejected, and a
default-resolution success yields resolution 500, all at concrete inputs. -/
theorem RDCRQuantile_New_validation_witness :
    RDCRQuantile_New 10000
      { keyOk := true, pct := some 2, resArg := none, trailing := false }
      = (none, true) ∧
    RDCRQuantile_New 10000
      { keyOk := true, pct := some 1, resArg := some (some 0),
        trailing := false } = (none, true) ∧
    (RDCRQuantile_New 10000
      { keyOk := true, pct := some 1, resArg := none,
        trailing := false }).1 = some { pct := 1, resolution := 500 } ∧
    ∀ red, (RDCRQuantile_New 10000
      { keyOk := true, pct := some 1, resArg := none,
        trailing := false }).1 = some red → red.resolution = 500 := by
  refine ⟨?_, ?_, by decide, ?_⟩
  · exact (RDCRQuantile_New_validation 10000 _).1 2 rfl (by right; decide)
  · exact (RDCRQuantile_New_validation 10000 _).2.1 0 rfl (by left; decide)
  · intro red hred
    exact (RDCRQuantile_New_validation 10000 _).2.2 red hred rfl

/-! ### Counter drain loop characterization (helper) -/

/-- Unfolding of the counter drain loop: it adds the number of pulled
records to `count`, appends them to `cleared`, and bumps the upstream
profiler count once per pull when the upstream is a Profile RP. -/
theorem rpcountDrainLoop_eq (xs : List SearchResult) : ∀ st : CounterState,
    rpcountDrainLoop xs st =
      { st with
        count := st.count + xs.length,
        cleared := st.cleared ++ xs,
        upCount := st.upCount + (if st.upstreamIsProfile then xs.length else 0) } := by
  induction xs with
  | nil => intro st; simp [rpcountDrainLoop]
  | cons r rest ih =>
    intro st
    rw [rpcountDrainLoop, ih]
    by_cases hb : st.upstreamIsProfile <;>
      simp [hb, CounterState.mk.injEq, List.append_assoc] <;> omega

/-- Full unfolding of one `rpcountNext` call (helper): drain everything,
count and clear the pulled records, let the upstream profiler count every
call through it (including the terminal one), and bump the end-processor
profiler once when the upstream is a Profile RP. -/
theorem rpcountNext_eq (s : CounterState) :
    rpcountNext s =
      (s.term.toStatus,
       { src := [], term := s.term, upstreamIsProfile := s.upstreamIsProfile,
         upCount := s.upCount
           + (if s.upstreamIsProfile then s.src.length + 1 else 0),
         endCount := s.endCount + (if s.upstreamIsProfile then 1 else 0),
         count := s.count + s.src.length,
         cleared := s.cleared ++ s.src }) := by
  by_cases hb : s.upstreamIsProfile <;>
    simp [rpcountNext, rpcountDrainLoop_eq, hb, CounterState.mk.injEq] <;>
    omega

/-- C6 (amended): the Counter RP pulls from upstream until a non-OK
status, counting each successful pull and clearing each record
immediately; its `next` never returns OK, and the status it returns is the
terminating status of the upstream — `EOF` when the upstream ended with
`EOF` (a `TIMED_OUT` or `ERROR` terminal status is propagated instead of
`EOF`). -/
theorem rpcountNext_drain_spec (s : CounterState) :
    (rpcountNext s).1 = s.term.toStatus ∧
    (rpcountNext s).1 ≠ RPStatus.ok ∧
    (s.term = Term.eof → (rpcountNext s).1 = RPStatus.eof) ∧
    (rpcountNext s).2.count = s.count + s.src.length ∧
    (rpcountNext s).2.cleared = s.cleared ++ s.src ∧
    (rpcountNext s).2.src = [] := by
  rw [rpcountNext_eq]
  refine ⟨rfl, ?_, ?_, rfl, rfl, rfl⟩
  · cases ht : s.term <;> simp [Term.toStatus]
  · intro h; rw [h]; rfl

/-- C6 witness: the amended counter behavior at a concrete two-record
upstream ending in EOF. -/
theorem rpcountNext_drain_spec_witness :
    (rpcountNext counterTwoRecEof).1 = RPStatus.eof ∧
    (rpcountNext counterTwoRecEof).2.count = 0 + 2 :=
  ⟨(rpcountNext_drain_spec counterTwoRecEof).2.2.1 rfl,
   (rpcountNext_drain_spec counterTwoRecEof).2.2.2.1⟩

/-- C6 counterexample: with an upstream whose terminal status is
`TIMED_OUT`, the counter returns `TIMED_OUT`, not `EOF`, refuting
"its next always returns EOF". -/
theorem rpcounter_not_always_eof :
    (rpcountNext counterTimedOut).1 = RPStatus.timedOut ∧
    (rpcountNext counterTimedOut).1 ≠ RPStatus.eof := by
  decide

/-- C5 (amended): when the immediate upstream of the Counter RP is a
Profile RP, the counter on exit increments the profile count of the
pipeline handle END processor (`base->parent->endProc`, the profiler
wrapping the counter itself in a fully profiled pipeline) by exactly one;
the immediately-upstream profiler count only grows by its own per-call
counting (one per pulled record plus one for the terminal pull). -/
theorem rpcountNext_bumps_endProc (s : CounterState)
    (h : s.upstreamIsProfile = true) :
    (rpcountNext s).2.endCount = s.endCount + 1 ∧
    (rpcountNext s).2.upCount = s.upCount + s.src.length + 1 := by
  rw [rpcountNext_eq]
  simp [h, Nat.add_assoc]

/-- C5 witness: the end-processor bump at a concrete one-record stream. -/
theorem rpcountNext_bumps_endProc_witness :
    (rpcountNext counterOneRecProfile).2.endCount = 0 + 1 :=
  (rpcountNext_bumps_endProc counterOneRecProfile rfl).1

/-- C5 counterexample: with one upstream record, the immediately-upstream
profiler count ends at 2 (its own counting of the OK pull and the EOF
pull) — not 3, as an extra compensating bump on the upstream profiler
would give — while the bump lands on the end-processor profiler, whose
count becomes 1 although it was never called during the drain. -/
theorem rpcounter_profile_bump_target :
    (rpcountNext counterOneRecProfile).2.upCount = 2 ∧
    (rpcountNext counterOneRecProfile).2.endCount = 1 ∧
    ¬ (rpcountNext counterOneRecProfile).2.upCount = 2 + 1 := by
  decide

/-- C3 (amended): once a result processor has returned `EOF`, subsequent
`next` calls keep returning `EOF` (for the counter because its exhausted
upstream keeps returning `EOF`, for the unlocker because it forwards the
upstream status) — but not necessarily without side effects: the unlocker
unlocks the GIL again on every such call, and the counter re-bumps the end
profiler count, which is what the counterexample exhibits. -/
theorem rp_eof_remains_eof :
    (∀ s : CounterState, s.src = [] → s.term = Term.eof →
      (rpcountNext s).1 = RPStatus.eof ∧
      (rpcountNext s).2.src = [] ∧ (rpcountNext s).2.term = Term.eof) ∧
    (∀ u : UnlockerState, u.src = [] → u.term = Term.eof →
      (RPUnlocker_Next u).1 = RPStatus.eof ∧
      (RPUnlocker_Next u).2.2.src = [] ∧
      (RPUnlocker_Next u).2.2.term = Term.eof ∧
      (RPUnlocker_Next u).2.2.unlockCount = u.unlockCount + 1) := by
  constructor
  · intro s hsrc hterm
    rw [rpcountNext_eq]
    exact ⟨by rw [hterm]; rfl, rfl, hterm⟩
  · intro u hsrc hterm
    simp [RPUnlocker_Next, hsrc, hterm, Term.toStatus]

/-- C3 witness: the amended EOF idempotence at concrete exhausted states. -/
theorem rp_eof_remains_eof_witness :
    (rpcountNext counterDrainedProfile).1 = RPStatus.eof ∧
    (RPUnlocker_Next unlockerDrained).1 = RPStatus.eof :=
  ⟨(rp_eof_remains_eof.1 counterDrainedProfile rfl rfl).1,
   (rp_eof_remains_eof.2 unlockerDrained rfl rfl).1⟩

/-- C3 counterexample: a second `next` call after EOF is not side-effect
free — for the counter under a profiled pipeline it increments the end
profiler count again (and the unlocker would unlock the GIL again), so
pipeline state changes even though `EOF` is returned both times. -/
theorem rp_eof_not_side_effect_free :
    (rpcountNext counterDrainedProfile).1 = RPStatus.eof ∧
    (rpcountNext (rpcountNext counterDrainedProfile).2).1 = RPStatus.eof ∧
    ¬ (rpcountNext (rpcountNext counterDrainedProfile).2).2.endCount
      = (rpcountNext counterDrainedProfile).2.endCount := by
  decide

/-- One scorer pull on a record the scoring function filters out
recurses on the rest with `totalResults` decremented (helper). -/
theorem rpscoreNext_cons_filtered (filterOut : Int) (sf : SearchResult → Int)
    (r : SearchResult) (rest : List SearchResult) (term : Term) (total : Int)
    (h : sf r = filterOut) :
    rpscoreNext filterOut sf (r :: rest) term total
      = rpscoreNext filterOut sf rest term (total - 1) := by
  simp [rpscoreNext, h]

/-- Full characterization of the scorer drain (helper): it emits, in
order, exactly the records whose computed score is not the sentinel (each
stamped with its score), finishes with the upstream terminal status, and
decrements `totalResults` once per filtered-out record. -/
theorem rpscoreDrain_eq (filterOut : Int) (sf : SearchResult → Int) :
    ∀ (xs : List SearchResult) (fuel : Nat) (term : Term) (total : Int),
    xs.length < fuel →
    rpscoreDrain filterOut sf fuel xs term total =
      ((xs.filter (fun r => sf r != filterOut)).map
         (fun r => { r with score := sf r }),
       term.toStatus,
       total - (xs.filter (fun r => sf r == filterOut)).length) := by
  intro xs
  induction xs with
  | nil =>
    intro fuel term total hf
    match fuel, hf with
    | fuel + 1, _ => cases term <;> simp [rpscoreDrain, rpscoreNext, Term.toStatus]
  | cons r rest ih =>
    intro fuel term total hf
    match fuel, hf with
    | fuel + 1, hf =>
      have hlen : rest.length < fuel + 1 := by
        simp only [List.length_cons] at hf; omega
      have hlen2 : rest.length < fuel := by
        simp only [List.length_cons] at hf; omega
      by_cases hr : sf r = filterOut
      · have step : rpscoreDrain filterOut sf (fuel + 1) (r :: rest) term total
            = rpscoreDrain filterOut sf (fuel + 1) rest term (total - 1) := by
          rw [rpscoreDrain, rpscoreNext_cons_filtered filterOut sf r rest term total hr,
            rpscoreDrain]
        rw [step, ih (fuel + 1) term (total - 1) hlen]
        simp only [List.filter_cons, hr]
        simp [Prod.ext_iff]
        omega
      · rw [rpscoreDrain]
        simp only [rpscoreNext, hr]
        rw [if_neg (by simpa using hr)]
        dsimp only
        rw [ih fuel term total hlen2]
        simp [List.filter_cons, hr]

/-- C8: for every record pulled from upstream, if the scoring function
returns the `FILTER_OUT` sentinel the scorer decrements `totalResults`,
clears the record and continues without emitting it — a filtered-out
`doc_id` never reaches any downstream RP — and otherwise the record is
emitted with `OK` carrying its computed score. -/
theorem rpscorer_filterout_spec (filterOut : Int) (sf : SearchResult → Int)
    (xs : List SearchResult) (term : Term) (total : Int) :
    rpscoreDrain filterOut sf (xs.length + 1) xs term total =
      ((xs.filter (fun r => sf r != filterOut)).map
         (fun r => { r with score := sf r }),
       term.toStatus,
       total - (xs.filter (fun r => sf r == filterOut)).length) ∧
    (∀ r ∈ xs, sf r ≠ filterOut →
      { r with score := sf r }
        ∈ (rpscoreDrain filterOut sf (xs.length + 1) xs term total).1) ∧
    (xs.Pairwise (fun a b => a.docId ≠ b.docId) →
      ∀ r ∈ xs, sf r = filterOut →
      ∀ y ∈ (rpscoreDrain filterOut sf (xs.length + 1) xs term total).1,
        y.docId ≠ r.docId) := by
  have hmain := rpscoreDrain_eq filterOut sf xs (xs.length + 1) term total
    (Nat.lt_succ_self _)
  refine ⟨hmain, ?_, ?_⟩
  · intro r hr hne
    rw [hmain]
    exact List.mem_map_of_mem _ (List.mem_filter.mpr ⟨hr, by simpa using hne⟩)
  · intro hpw r hr hfo y hy
    rw [hmain] at hy
    obtain ⟨r2, hr2, hyr⟩ := List.mem_map.mp hy
    obtain ⟨hr2mem, hr2keep⟩ := List.mem_filter.mp hr2
    have hne : r2 ≠ r := by
      intro he
      rw [he] at hr2keep
      simp [hfo] at hr2keep
    have hdoc : r2.docId ≠ r.docId :=
      hpw.forall (fun a b h => h.symm) hr2mem hr hne
    rw [← hyr]
    exact hdoc

/-- C8 witness: the spec filter-out scenario — five records, the scoring
function sends doc 2 to the sentinel; doc 2 is absent downstream. -/
theorem rpscorer_filterout_spec_witness :
    scorerExample.Pairwise (fun a b => a.docId ≠ b.docId) ∧
    ∀ y ∈ (rpscoreDrain (-1) SearchResult.score (scorerExample.length + 1)
        scorerExample Term.eof 5).1, y.docId ≠ 2 := by
  refine ⟨by decide, ?_⟩
  intro y hy
  exact (rpscorer_filterout_spec (-1) SearchResult.score scorerExample
    Term.eof 5).2.2 (by decide)
    { docId := 2, score := -1, dmd := none, rowdata := [] }
    (by decide) (by decide) y hy

/-- C9: when the dmd is absent or marked deleted the Loader RP returns
`OK` without loading any fields (the record passes through unchanged), and
when loading the document fails the Loader RP still returns `OK` with the
row left as it was, instead of propagating an error status; on any pulled
record the returned status is `OK`. -/
theorem rploader_returns_ok (load : SearchResult → Option (List (Nat × Int)))
    (r : SearchResult) (rest : List SearchResult) (term : Term) :
    (dmdMissingOrDeleted r = true →
      rploaderNext load (r :: rest) term = (.ok, some r, rest)) ∧
    (load r = none →
      rploaderNext load (r :: rest) term = (.ok, some r, rest)) ∧
    (rploaderNext load (r :: rest) term).1 = RPStatus.ok := by
  refine ⟨fun h => by simp [rploaderNext, h], fun h => ?_, ?_⟩
  · by_cases hd : dmdMissingOrDeleted r <;> simp [rploaderNext, hd, h]
  · by_cases hd : dmdMissingOrDeleted r
    · simp [rploaderNext, hd]
    · cases hl : load r <;> simp [rploaderNext, hd, hl]

/-- C9 witness: a deleted-dmd record passes through with `OK`, and a
failing loader still produces `OK` with the row unchanged. -/
theorem rploader_returns_ok_witness :
    rploaderNext (fun _ => none) [deletedResult] Term.eof
      = (.ok, some deletedResult, []) ∧
    rploaderNext (fun _ => none) [liveResult] Term.eof
      = (.ok, some liveResult, []) :=
  ⟨(rploader_returns_ok (fun _ => none) deletedResult [] Term.eof).1 rfl,
   (rploader_returns_ok (fun _ => none) liveResult [] Term.eof).2.1 rfl⟩

/-- The score comparator decoded (helper): `a` beats `b` iff `a` has the
greater score, or scores are equal and `a` has doc id less than or equal
to that of `b`. -/
theorem sortGT_cmpByScore_iff (a b : SearchResult) :
    sortGT cmpByScore a b ↔
      (b.score < a.score ∨ (a.score = b.score ∧ a.docId ≤ b.docId)) := by
  unfold sortGT cmpByScore
  split_ifs with h1 h2 h3 <;> omega

/-- Totality of the score comparator (helper). -/
theorem cmpByScore_total (a b : SearchResult) :
    sortGT cmpByScore a b ∨ sortGT cmpByScore b a := by
  rw [sortGT_cmpByScore_iff, sortGT_cmpByScore_iff]
  omega

/-- Transitivity of the score comparator (helper). -/
theorem cmpByScore_trans (a b c : SearchResult) :
    sortGT cmpByScore a b → sortGT cmpByScore b c → sortGT cmpByScore a c := by
  rw [sortGT_cmpByScore_iff, sortGT_cmpByScore_iff, sortGT_cmpByScore_iff]
  omega

/-- Records with distinct doc ids are never tied under the score
comparator (helper). -/
theorem cmpByScore_no_tie (a b : SearchResult) (h : a.docId ≠ b.docId) :
    ¬(sortGT cmpByScore a b ∧ sortGT cmpByScore b a) := by
  rw [sortGT_cmpByScore_iff, sortGT_cmpByScore_iff]
  omega

/-- An in-bounds `getD` is a member (helper). -/
theorem getD_mem_of_lt {α : Type} :
    ∀ (l : List α) (i : Nat) (d : α), i < l.length → l.getD i d ∈ l
  | x :: xs, 0, d, _ => List.mem_cons_self x xs
  | x :: xs, i + 1, d, h =>
    List.mem_cons_of_mem x
      (getD_mem_of_lt xs i d (Nat.lt_of_succ_lt_succ h))

/-- `getLast?` of a non-empty list as `getD` at the last index (helper). -/
theorem getLast?_eq_getD {α : Type} :
    ∀ (l : List α) (d : α), l ≠ [] →
    l.getLast? = some (l.getD (l.length - 1) d)
  | [x], d, _ => rfl
  | x :: y :: t, d, _ => by
    rw [List.getLast?_cons_cons, getLast?_eq_getD (y :: t) d (by simp)]
    rfl

/-- Ordered insertion that lands within the first `k + 1` positions
(helper): when `x` beats the element at index `k` of a descending-sorted
list, the first `k + 1` elements of the insertion are the insertion into
the first `k` elements. -/
theorem take_orderedInsert_of_gt (cmp : SearchResult → SearchResult → Int) :
    ∀ (s : List SearchResult) (k : Nat) (x : SearchResult),
    k < s.length →
    s.Pairwise (sortGT cmp) →
    sortGT cmp x (s.getD k x) →
    (List.orderedInsert (sortGT cmp) x s).take (k + 1)
      = List.orderedInsert (sortGT cmp) x (s.take k)
  | [], k, x, hk, _, _ => absurd hk (by simp)
  | y :: t, k, x, hk, hs, hgt => by
    by_cases hxy : sortGT cmp x y
    · rw [List.orderedInsert, if_pos hxy]
      cases k with
      | zero => simp [List.orderedInsert]
      | succ j =>
        rw [List.take_succ_cons, List.take_succ_cons, List.orderedInsert,
          if_pos hxy]
    · rw [List.orderedInsert, if_neg hxy]
      cases k with
      | zero => exact absurd (by simpa using hgt) hxy
      | succ j =>
        rw [List.take_succ_cons, List.take_succ_cons, List.orderedInsert,
          if_neg hxy]
        have hgt2 : sortGT cmp x (t.getD j x) := by simpa using hgt
        rw [take_orderedInsert_of_gt cmp t j x (Nat.lt_of_succ_lt_succ hk)
          (List.pairwise_cons.mp hs).2 hgt2]

/-- Ordered insertion that lands past the first `k + 1` positions
(helper): when `x` does not beat the element at index `k` of a
descending-sorted list, the first `k + 1` elements are unchanged by the
insertion. -/
theorem take_orderedInsert_of_not_gt (cmp : SearchResult → SearchResult → Int)
    (htr : ∀ a b c, sortGT cmp a b → sortGT cmp b c → sortGT cmp a c) :
    ∀ (s : List SearchResult) (k : Nat) (x : SearchResult),
    k < s.length →
    s.Pairwise (sortGT cmp) →
    ¬ sortGT cmp x (s.getD k x) →
    (List.orderedInsert (sortGT cmp) x s).take (k + 1) = s.take (k + 1)
  | [], k, x, hk, _, _ => absurd hk (by simp)
  | y :: t, k, x, hk, hs, hngt => by
    by_cases hxy : sortGT cmp x y
    · cases k with
      | zero => exact absurd hxy hngt
      | succ j =>
        exfalso
        have hytj : sortGT cmp y (t.getD j x) :=
          (List.pairwise_cons.mp hs).1 _
            (getD_mem_of_lt t j x (Nat.lt_of_succ_lt_succ hk))
        have hngt2 : ¬ sortGT cmp x (t.getD j x) := by simpa using hngt
        exact hngt2 (htr _ _ _ hxy hytj)
    · rw [List.orderedInsert, if_neg hxy]
      cases k with
      | zero => simp
      | succ j =>
        rw [List.take_succ_cons, List.take_succ_cons]
        have hngt2 : ¬ sortGT cmp x (t.getD j x) := by simpa using hngt
        rw [take_orderedInsert_of_not_gt cmp htr t j x
          (Nat.lt_of_succ_lt_succ hk) (List.pairwise_cons.mp hs).2 hngt2]

/-- Ordered insertion preserves the descending-sorted invariant of the
heap model (helper), given totality and transitivity of the comparator. -/
theorem pairwise_orderedInsert (cmp : SearchResult → SearchResult → Int)
    (htot : ∀ a b, sortGT cmp a b ∨ sortGT cmp b a)
    (htr : ∀ a b c, sortGT cmp a b → sortGT cmp b c → sortGT cmp a c)
    (x : SearchResult) (s : List SearchResult)
    (hs : s.Pairwise (sortGT cmp)) :
    (List.orderedInsert (sortGT cmp) x s).Pairwise (sortGT cmp) := by
  letI : IsTotal SearchResult (sortGT cmp) := ⟨htot⟩
  letI : IsTrans SearchResult (sortGT cmp) := ⟨fun a b c => htr a b c⟩
  exact List.Sorted.orderedInsert x s hs

/-- The heap update on a full-or-filling heap holding the top `K` of the
descending sort (helper): one `rpsortHeapUpdate` step on `s.take K` is
`take K` of the ordered insertion into the whole sorted list `s`. -/
theorem rpsortHeapUpdate_take (cmp : SearchResult → SearchResult → Int)
    (htr : ∀ a b c, sortGT cmp a b → sortGT cmp b c → sortGT cmp a c)
    (K : Nat) (hK : 0 < K) (s : List SearchResult) (x : SearchResult)
    (hs : s.Pairwise (sortGT cmp)) :
    rpsortHeapUpdate cmp K (s.take K) x
      = (List.orderedInsert (sortGT cmp) x s).take K := by
  by_cases hlen : s.length < K
  · rw [List.take_of_length_le (Nat.le_of_lt hlen)]
    rw [rpsortHeapUpdate, if_pos]
    · rw [List.take_of_length_le]
      · rfl
      · rw [List.orderedInsert_length]
        exact hlen
    · exact Or.inr (by omega)
  · have hKs : K ≤ s.length := Nat.le_of_not_lt hlen
    have hlt : (s.take K).length = K := by
      rw [List.length_take]
      exact Nat.min_eq_left hKs
    obtain ⟨k, rfl⟩ : ∃ k, K = k + 1 := ⟨K - 1, (Nat.succ_pred_eq_of_pos hK).symm⟩
    have hne : s.take (k + 1) ≠ [] := by
      intro h
      rw [h] at hlt
      exact absurd hlt.symm (by simp)
    have hgetD : (s.take (k + 1)).getD ((s.take (k + 1)).length - 1) x
        = s.getD k x := by
      rw [hlt]
      simp only [List.getD_eq_getElem?_getD, Nat.add_sub_cancel]
      rw [List.getElem?_take_of_lt (Nat.lt_succ_self k)]
    rw [rpsortHeapUpdate, if_neg]
    · rw [show mmh_peek_min (s.take (k + 1))
          = some ((s.take (k + 1)).getD ((s.take (k + 1)).length - 1) x)
        from getLast?_eq_getD (s.take (k + 1)) x hne]
      rw [hgetD]
      dsimp only
      by_cases hxm : 0 < cmp x (s.getD k x)
      · rw [if_pos hxm]
        have hpop : mmh_pop_min (s.take (k + 1)) = s.take k := by
          rw [mmh_pop_min, List.dropLast_eq_take, hlt]
          rw [Nat.add_sub_cancel, List.take_take]
          rw [Nat.min_eq_left (Nat.le_succ k)]
        rw [hpop, mmh_insert]
        rw [take_orderedInsert_of_gt cmp s k x (Nat.lt_of_succ_le hKs) hs hxm]
      · rw [if_neg hxm]
        rw [take_orderedInsert_of_not_gt cmp htr s k x
          (Nat.lt_of_succ_le hKs) hs hxm]
    · rw [hlt]
      omega

/-- The accumulation invariant (helper): folding the upstream records
through the heap update, starting from the top `K` of a sorted list `s`,
yields the top `K` of folding them through plain ordered insertion into
`s`, provided the comparator is total and transitive. -/
theorem rpsortAccum_invariant (cmp : SearchResult → SearchResult → Int)
    (htot : ∀ a b, sortGT cmp a b ∨ sortGT cmp b a)
    (htr : ∀ a b c, sortGT cmp a b → sortGT cmp b c → sortGT cmp a c)
    (K : Nat) (hK : 0 < K) :
    ∀ (zs s : List SearchResult), s.Pairwise (sortGT cmp) →
    zs.foldl (rpsortHeapUpdate cmp K) (s.take K)
      = (zs.foldl (fun h x => List.orderedInsert (sortGT cmp) x h) s).take K := by
  intro zs
  induction zs with
  | nil => intro s _; rfl
  | cons x rest ih =>
    intro s hs
    rw [List.foldl_cons, List.foldl_cons]
    rw [rpsortHeapUpdate_take cmp htr K hK s x hs]
    exact ih (List.orderedInsert (sortGT cmp) x s)
      (pairwise_orderedInsert cmp htot htr x s hs)

/-- The sorter accumulation phase computes the top `K` of the
specification-side descending sort (helper). -/
theorem rpsortAccum_eq_take (cmp : SearchResult → SearchResult → Int)
    (htot : ∀ a b, sortGT cmp a b ∨ sortGT cmp b a)
    (htr : ∀ a b c, sortGT cmp a b → sortGT cmp b c → sortGT cmp a c)
    (K : Nat) (hK : 0 < K) (xs : List SearchResult) :
    rpsortAccum cmp K xs = (sortDescSpec cmp xs).take K := by
  have h := rpsortAccum_invariant cmp htot htr K hK xs [] (List.Pairwise.nil)
  simpa [rpsortAccum, sortDescSpec] using h

/-- The specification-side sort is a permutation of its input (helper). -/
theorem sortDescSpec_perm_aux (cmp : SearchResult → SearchResult → Int) :
    ∀ (xs s : List SearchResult),
    List.Perm (xs.foldl (fun h x => List.orderedInsert (sortGT cmp) x h) s)
      (xs ++ s) := by
  intro xs
  induction xs with
  | nil => intro s; simp
  | cons x rest ih =>
    intro s
    rw [List.foldl_cons]
    refine (ih (List.orderedInsert (sortGT cmp) x s)).trans ?_
    refine (List.Perm.append_left rest
      (List.perm_orderedInsert (sortGT cmp) x s)).trans ?_
    simpa using (@List.perm_middle SearchResult x rest s).trans
      (List.Perm.refl _)

/-- `sortDescSpec` permutes the input (helper). -/
theorem sortDescSpec_perm (cmp : SearchResult → SearchResult → Int)
    (xs : List SearchResult) : List.Perm (sortDescSpec cmp xs) xs := by
  simpa [sortDescSpec] using sortDescSpec_perm_aux cmp xs []

/-- `sortDescSpec` is sorted in descending comparator order (helper). -/
theorem sortDescSpec_sorted (cmp : SearchResult → SearchResult → Int)
    (htot : ∀ a b, sortGT cmp a b ∨ sortGT cmp b a)
    (htr : ∀ a b c, sortGT cmp a b → sortGT cmp b c → sortGT cmp a c)
    (xs : List SearchResult) :
    (sortDescSpec cmp xs).Pairwise (sortGT cmp) := by
  suffices h : ∀ (zs s : List SearchResult), s.Pairwise (sortGT cmp) →
      (zs.foldl (fun h x => List.orderedInsert (sortGT cmp) x h) s).Pairwise
        (sortGT cmp) from h xs [] List.Pairwise.nil
  intro zs
  induction zs with
  | nil => intro s hs; exact hs
  | cons x rest ih =>
    intro s hs
    rw [List.foldl_cons]
    exact ih _ (pairwise_orderedInsert cmp htot htr x s hs)

/-- The sorter drain under a yield-triggering terminal status (helper):
upstream `EOF`, or `TIMED_OUT` under policy `Return`, drains the top `K`
of the descending sort and finishes with status `EOF`. -/
theorem rpsortDrain_characterization (cmp : SearchResult → SearchResult → Int)
    (htot : ∀ a b, sortGT cmp a b ∨ sortGT cmp b a)
    (htr : ∀ a b c, sortGT cmp a b → sortGT cmp b c → sortGT cmp a c)
    (K : Nat) (hK : 0 < K) (xs : List SearchResult) (term : Term)
    (pol : TimeoutPolicy)
    (hterm : term = Term.eof ∨ (term = Term.timedOut ∧ pol = TimeoutPolicy.Return)) :
    rpsortDrain cmp K xs term pol
      = ((sortDescSpec cmp xs).take K, RPStatus.eof) := by
  rw [rpsortDrain, if_pos hterm, rpsortYield, if_neg (by omega : ¬ K = 0)]
  rw [rpsortAccum_eq_take cmp htot htr K hK xs, List.take_take, Nat.min_self]

/-- C2: a sorter with capacity `K > 0` and comparator `C` yields, after
upstream EOF, at most `K` records, namely the `C`-greatest
`min K n` records among all inputs in descending `C` order (the first `K`
of the descending sort of the whole input, which permutes the input and is
`C`-sorted); and under the score comparator, with distinct doc ids, the
yield is ordered by descending score with equal scores ordered by
ascending doc id (lower doc id first). -/
theorem rpsorter_topK :
    (∀ (cmp : SearchResult → SearchResult → Int) (K : Nat)
      (xs : List SearchResult) (pol : TimeoutPolicy),
      0 < K →
      (∀ a b, sortGT cmp a b ∨ sortGT cmp b a) →
      (∀ a b c, sortGT cmp a b → sortGT cmp b c → sortGT cmp a c) →
      (rpsortDrain cmp K xs Term.eof pol).1 = (sortDescSpec cmp xs).take K ∧
      (rpsortDrain cmp K xs Term.eof pol).1.length = min K xs.length ∧
      (rpsortDrain cmp K xs Term.eof pol).1.length ≤ K ∧
      List.Perm (sortDescSpec cmp xs) xs ∧
      (sortDescSpec cmp xs).Pairwise (sortGT cmp)) ∧
    (∀ (K : Nat) (xs : List SearchResult) (pol : TimeoutPolicy),
      0 < K → xs.Pairwise (fun a b => a.docId ≠ b.docId) →
      (rpsortDrain cmpByScore K xs Term.eof pol).1.Pairwise
        (fun a b => b.score < a.score ∨ (a.score = b.score ∧ a.docId < b.docId))) := by
  constructor
  · intro cmp K xs pol hK htot htr
    have hchar := rpsortDrain_characterization cmp htot htr K hK xs Term.eof pol
      (Or.inl rfl)
    have hperm := sortDescSpec_perm cmp xs
    refine ⟨by rw [hchar], ?_, ?_, hperm, sortDescSpec_sorted cmp htot htr xs⟩
    · rw [hchar]
      simp only [List.length_take]
      rw [hperm.length_eq]
    · rw [hchar]
      simp only [List.length_take]
      omega
  · intro K xs pol hK hdist
    have hchar := rpsortDrain_characterization cmpByScore cmpByScore_total
      cmpByScore_trans K hK xs Term.eof pol (Or.inl rfl)
    rw [hchar]
    have hsorted := sortDescSpec_sorted cmpByScore cmpByScore_total
      cmpByScore_trans xs
    have hdist2 : (sortDescSpec cmpByScore xs).Pairwise
        (fun a b => a.docId ≠ b.docId) :=
      ((sortDescSpec_perm cmpByScore xs).pairwise_iff
        (fun h => Ne.symm h)).mpr hdist
    have hboth := hsorted.and hdist2
    have hstrict : (sortDescSpec cmpByScore xs).Pairwise
        (fun a b => b.score < a.score ∨ (a.score = b.score ∧ a.docId < b.docId)) := by
      refine hboth.imp ?_
      intro a b hab
      obtain ⟨hgt, hne⟩ := hab
      rw [sortGT_cmpByScore_iff] at hgt
      omega
    exact hstrict.sublist (List.take_sublist K _)

/-- C2 witness: the score top-3 scenario — capacity 3 over the five
records yields `(2,3) (4,3) (3,2)`: ties broken by lower doc id first. -/
theorem rpsorter_topK_witness :
    (0 : Nat) < 3 ∧
    sorterExample.Pairwise (fun a b => a.docId ≠ b.docId) ∧
    (rpsortDrain cmpByScore 3 sorterExample Term.eof TimeoutPolicy.Return).1
      = [{ docId := 2, score := 3, dmd := none, rowdata := [] },
         { docId := 4, score := 3, dmd := none, rowdata := [] },
         { docId := 3, score := 2, dmd := none, rowdata := [] }] ∧
    (rpsortDrain cmpByScore 3 sorterExample Term.eof TimeoutPolicy.Return).1.Pairwise
      (fun a b => b.score < a.score ∨ (a.score = b.score ∧ a.docId < b.docId)) ∧
    (rpsortDrain cmpByScore 3 sorterExample Term.eof TimeoutPolicy.Return).1
      = (sortDescSpec cmpByScore sorterExample).take 3 :=
  ⟨by decide, by decide, by decide,
   rpsorter_topK.2 3 sorterExample TimeoutPolicy.Return (by decide) (by decide),
   (rpsorter_topK.1 cmpByScore 3 sorterExample TimeoutPolicy.Return (by decide)
     cmpByScore_total cmpByScore_trans).1⟩

/-- C4: under the `Return` timeout policy, an upstream `TIMED_OUT` makes
the sorter transition to its yield phase and drain the records already
accepted into its heap in sorted order — the same output as an upstream
`EOF` — and the status the caller sees at end-of-stream is `EOF`, not
`TIMED_OUT`. -/
theorem rpsorter_timedout_return (cmp : SearchResult → SearchResult → Int)
    (K : Nat) (xs : List SearchResult) (hK : 0 < K)
    (htot : ∀ a b, sortGT cmp a b ∨ sortGT cmp b a)
    (htr : ∀ a b c, sortGT cmp a b → sortGT cmp b c → sortGT cmp a c) :
    rpsortDrain cmp K xs Term.timedOut TimeoutPolicy.Return
      = ((sortDescSpec cmp xs).take K, RPStatus.eof) ∧
    rpsortDrain cmp K xs Term.timedOut TimeoutPolicy.Return
      = rpsortDrain cmp K xs Term.eof TimeoutPolicy.Return ∧
    (rpsortDrain cmp K xs Term.timedOut TimeoutPolicy.Return).2
      ≠ RPStatus.timedOut := by
  have h1 := rpsortDrain_characterization cmp htot htr K hK xs Term.timedOut
    TimeoutPolicy.Return (Or.inr ⟨rfl, rfl⟩)
  have h2 := rpsortDrain_characterization cmp htot htr K hK xs Term.eof
    TimeoutPolicy.Return (Or.inl rfl)
  refine ⟨h1, h1.trans h2.symm, ?_⟩
  rw [h1]
  simp

/-- C4 witness: the timeout scenario — two records accepted before the
source raises `TIMED_OUT` under policy `Return`; both are drained in
sorted order and the final status is `EOF`. -/
theorem rpsorter_timedout_return_witness :
    rpsortDrain cmpByScore 10
      [{ docId := 1, score := 1, dmd := none, rowdata := [] },
       { docId := 2, score := 3, dmd := none, rowdata := [] }]
      Term.timedOut TimeoutPolicy.Return
      = ((sortDescSpec cmpByScore
          [{ docId := 1, score := 1, dmd := none, rowdata := [] },
           { docId := 2, score := 3, dmd := none, rowdata := [] }]).take 10,
         RPStatus.eof) :=
  (rpsorter_timedout_return cmpByScore 10 _ (by decide) cmpByScore_total
    cmpByScore_trans).1

/-- The pager skip loop (helper): with enough upstream records, the call
at `count ≤ offset` behaves as the call at `count = offset` on the input
with the skipped records dropped. -/
theorem rppagerNext_skip (offset limit : Nat) (term : Term)
    (hoff : offset < 4294967296) :
    ∀ (xs : List SearchResult) (count : Nat), count ≤ offset →
    offset - count ≤ xs.length →
    rppagerNext offset limit term count xs
      = rppagerNext offset limit term offset (xs.drop (offset - count))
  | [], count, hle, hlen => by
    have hco : count = offset := by simp at hlen; omega
    rw [hco]
    simp [Nat.sub_self]
  | x :: rest, count, hle, hlen => by
    by_cases hco : count < offset
    · rw [rppagerNext, if_pos hco, Nat.mod_eq_of_lt (by omega)]
      rw [rppagerNext_skip offset limit term hoff rest (count + 1) (by omega)
        (by simp at hlen ⊢; omega)]
      have harith : offset - count = (offset - (count + 1)) + 1 := by omega
      rw [harith, List.drop_succ_cons]
    · have hco2 : count = offset := by omega
      rw [hco2]
      simp [Nat.sub_self]

/-- The pager skip loop on a stream shorter than the offset (helper): the
upstream terminal status is propagated with nothing yielded. -/
theorem rppagerNext_skip_short (offset limit : Nat) (term : Term)
    (hoff : offset < 4294967296) :
    ∀ (xs : List SearchResult) (count : Nat), xs.length < offset - count →
    rppagerNext offset limit term count xs
      = (term.toStatus, none, count + xs.length, [])
  | [], count, h => by
    rw [rppagerNext, if_pos (by simp at h; omega)]
    simp
  | x :: rest, count, h => by
    rw [rppagerNext, if_pos (by omega : count < offset),
      Nat.mod_eq_of_lt (by omega)]
    rw [rppagerNext_skip_short offset limit term hoff rest (count + 1)
      (by simp at h ⊢; omega)]
    have : count + (x :: rest).length = (count + 1) + rest.length := by
      simp; omega
    rw [this]

/-- Two pager-drain calls whose first `rppagerNext` calls agree are equal
(helper). -/
theorem rppagerDrain_congr (offset limit : Nat) (term : Term) (fuel : Nat)
    (c1 c2 : Nat) (ys1 ys2 : List SearchResult)
    (h : rppagerNext offset limit term c1 ys1
      = rppagerNext offset limit term c2 ys2) :
    rppagerDrain offset limit term (fuel + 1) c1 ys1
      = rppagerDrain offset limit term (fuel + 1) c2 ys2 := by
  rw [rppagerDrain, rppagerDrain, h]

/-- The pager drain from the yield region (helper): starting at
`offset ≤ c ≤ offset + limit` with no 32-bit overflow, the drain emits the
next `offset + limit - c` records (or all remaining) and finishes with
`EOF`. -/
theorem rppagerDrain_yield (offset limit : Nat)
    (hlim : offset + limit < 4294967296) :
    ∀ (fuel : Nat) (ys : List SearchResult) (c : Nat),
    offset ≤ c → c ≤ offset + limit → ys.length < fuel →
    rppagerDrain offset limit Term.eof fuel c ys
      = (ys.take (offset + limit - c), RPStatus.eof)
  | 0, ys, c, _, _, hf => absurd hf (by omega)
  | fuel + 1, [], c, hc1, hc2, hf => by
    rw [rppagerDrain, rppagerNext, if_neg (by omega : ¬ c < offset),
      Nat.mod_eq_of_lt (by omega : limit + offset < 4294967296)]
    by_cases hce : limit + offset ≤ c
    · rw [if_pos hce]
      simp
    · rw [if_neg hce]
      simp [Term.toStatus]
  | fuel + 1, y :: t, c, hc1, hc2, hf => by
    rw [rppagerDrain, rppagerNext, if_neg (by omega : ¬ c < offset),
      Nat.mod_eq_of_lt (by omega : limit + offset < 4294967296)]
    by_cases hce : limit + offset ≤ c
    · rw [if_pos hce]
      have hz : offset + limit - c = 0 := by omega
      simp [hz]
    · rw [if_neg hce, Nat.mod_eq_of_lt (by omega : c + 1 < 4294967296)]
      dsimp only
      rw [rppagerDrain_yield offset limit hlim fuel t (c + 1) (by omega)
        (by omega) (by simp at hf ⊢; omega)]
      have harith : offset + limit - c = (offset + limit - (c + 1)) + 1 := by
        omega
      rw [harith, List.take_succ_cons]

/-- Dropping from a replicated list (helper). -/
theorem drop_replicate_eq {α : Type} (a : α) :
    ∀ (n m : Nat), (List.replicate n a).drop m = List.replicate (n - m) a
  | n, 0 => by simp
  | 0, m + 1 => by simp
  | n + 1, m + 1 => by
    rw [List.replicate_succ, List.drop_succ_cons, drop_replicate_eq a n m]
    congr 1
    omega

/-- C7 (amended): provided `offset + limit` does not overflow 32-bit
unsigned arithmetic, the pager over an upstream `x1 ... xn` followed by
`EOF` yields exactly `x(offset+1) ... x(min (offset+limit) n)` in input
order, and returns `EOF` afterwards. -/
theorem rppager_window (offset limit : Nat) (xs : List SearchResult)
    (h : offset + limit < 4294967296) :
    rppagerDrain offset limit Term.eof (xs.length + 1) 0 xs
      = ((xs.drop offset).take limit, RPStatus.eof) := by
  by_cases hn : offset ≤ xs.length
  · have hskip := rppagerNext_skip offset limit Term.eof (by omega) xs 0
      (Nat.zero_le _) (by simpa using hn)
    rw [Nat.sub_zero] at hskip
    rw [rppagerDrain_congr offset limit Term.eof xs.length 0 offset xs
      (xs.drop offset) hskip]
    rw [rppagerDrain_yield offset limit h (xs.length + 1) (xs.drop offset)
      offset (Nat.le_refl offset) (by omega) (by simp; omega)]
    have harith : offset + limit - offset = limit := by omega
    rw [harith]
  · have hshort := rppagerNext_skip_short offset limit Term.eof (by omega) xs 0
      (by omega)
    rw [rppagerDrain, hshort]
    dsimp only
    rw [List.drop_eq_nil_of_le (by omega : xs.length ≤ offset)]
    simp [Term.toStatus]

/-- C7 witness: pager `(offset 2, limit 2)` over five records yields the
third and fourth and ends with `EOF`; doc ids 3 and 4 on the running
example. -/
theorem rppager_window_witness :
    rppagerDrain 2 2 Term.eof (sorterExample.length + 1) 0 sorterExample
      = ((sorterExample.drop 2).take 2, RPStatus.eof) ∧
    (rppagerDrain 2 2 Term.eof (sorterExample.length + 1) 0
      sorterExample).1.map (fun r => r.docId) = [3, 4] :=
  ⟨rppager_window 2 2 sorterExample (by norm_num), by decide⟩

/-- C7 counterexample: with `offset = limit = 2^31` the comparison
`count >= limit + offset` is computed modulo `2^32` and wraps to
`count >= 0`, so over an upstream of `2^31 + 1` records the pager yields
nothing, while the claim demands that it yield record number `2^31 + 1`
(the window formula gives `[x(2^31+1)]`, a non-empty list). -/
theorem rppager_uint32_overflow :
    (rppagerDrain 2147483648 2147483648 Term.eof 3 0
        (List.replicate 2147483649 plainResult)).1
      ≠ ((List.replicate 2147483649 plainResult).drop 2147483648).take
          2147483648 := by
  have hskip := rppagerNext_skip 2147483648 2147483648 Term.eof (by norm_num)
    (List.replicate 2147483649 plainResult) 0 (Nat.zero_le _)
    (by rw [List.length_replicate]; norm_num)
  rw [Nat.sub_zero] at hskip
  have hsub : (2147483649 : Nat) - 2147483648 = 1 := by norm_num
  have hdrop : (List.replicate 2147483649 plainResult).drop 2147483648
      = [plainResult] := by
    rw [drop_replicate_eq, hsub, List.replicate_one]
  have hLHS : rppagerDrain 2147483648 2147483648 Term.eof 3 0
      (List.replicate 2147483649 plainResult) = ([], RPStatus.eof) := by
    rw [show (3 : Nat) = 2 + 1 from rfl]
    rw [rppagerDrain_congr 2147483648 2147483648 Term.eof 2 0 2147483648
      (List.replicate 2147483649 plainResult)
      ((List.replicate 2147483649 plainResult).drop 2147483648) hskip]
    rw [hdrop, rppagerDrain, rppagerNext,
      if_neg (by norm_num : ¬ (2147483648 : Nat) < 2147483648)]
    rw [if_pos (by norm_num :
      (2147483648 + 2147483648) % 4294967296 ≤ (2147483648 : Nat))]
  rw [hLHS, hdrop]
  rw [List.take_of_length_le (by norm_num : ([plainResult] : List SearchResult).length ≤ 2147483648)]
  simp
